import Mathlib

/-!
Shallow embedding of `src/custom/src/TyphoonHQuickInterface.cc`
(TyphoonHQuickInterface, TyphoonHFileCopy, TyphoonSSIDItem,
TyphoonMediaItem) and proofs about the claims on that code.

Modelling conventions:
* QString values are Lean `String`s; QString.startsWith / endsWith are
  character-list prefix / suffix tests.
* `std::sort` with a strict comparator `cmp` is modelled by an insertion
  sort over the reflexive closure of `cmp` (std::sort is not stable, so
  any order among `cmp`-equivalent elements is a faithful model).
* `double` values touched only by comparisons and assignments are
  modelled as rationals.
* Signal emissions relevant to the claims are recorded explicitly
  (lists of messages, emission counters).
-/

namespace TyphoonH

/-! ### Generic list machinery: insertion sort and sortedness -/

/-- Insert `x` into `l`, placing it before the first element `y`
with `r x y` true. -/
def orderedInsertB (r : α → α → Bool) (x : α) : List α → List α
  | [] => [x]
  | y :: ys => if r x y then x :: y :: ys else y :: orderedInsertB r x ys

/-- Insertion sort by the Bool relation `r`; models `std::sort` with the
strict comparator whose reflexive closure is `r`. -/
def insertionSortB (r : α → α → Bool) : List α → List α
  | [] => []
  | x :: xs => orderedInsertB r x (insertionSortB r xs)

/-- Adjacent-pairwise sortedness for the Bool relation `r`. -/
def sortedB (r : α → α → Bool) : List α → Bool
  | [] => true
  | [_] => true
  | a :: b :: rest => r a b && sortedB r (b :: rest)

theorem sortedB_cons_of (r : α → α → Bool) (a b : α) (l : List α)
    (hab : r a b = true) (h : sortedB r (b :: l) = true) :
    sortedB r (a :: b :: l) = true := by
  simp [sortedB, hab, h]

theorem sortedB_of_cons (r : α → α → Bool) (a : α) (l : List α)
    (h : sortedB r (a :: l) = true) : sortedB r l = true := by
  cases l with
  | nil => simp [sortedB]
  | cons b rest => simp [sortedB] at h; exact h.2

theorem orderedInsertB_sorted (r : α → α → Bool)
    (htot : ∀ a b : α, r a b = true ∨ r b a = true) (x : α) :
    ∀ l : List α, sortedB r l = true →
      sortedB r (orderedInsertB r x l) = true := by
  intro l
  induction l with
  | nil => intro _; simp [orderedInsertB, sortedB]
  | cons y ys ih =>
    intro hsorted
    simp only [orderedInsertB]
    by_cases hxy : r x y = true
    · simp only [hxy, if_pos]
      exact sortedB_cons_of r x y ys hxy hsorted
    · simp only [hxy, if_neg, Bool.not_eq_true]
      have hyx : r y x = true := by
        rcases htot x y with h | h
        · exact absurd h hxy
        · exact h
      have hys : sortedB r ys = true := sortedB_of_cons r y ys hsorted
      have hrec : sortedB r (orderedInsertB r x ys) = true := ih hys
      cases ys with
      | nil => simp [orderedInsertB, sortedB, hyx]
      | cons z zs =>
        have hyz : r y z = true := by
          simp [sortedB] at hsorted; exact hsorted.1
        simp only [orderedInsertB]
        by_cases hxz : r x z = true
        · simp only [hxz, if_pos]
          apply sortedB_cons_of r y x (z :: zs) hyx
          simp only [orderedInsertB, hxz, if_pos] at hrec
          exact hrec
        · simp only [hxz, if_neg, Bool.not_eq_true]
          apply sortedB_cons_of r y z _ hyz
          simp only [orderedInsertB, hxz, if_neg, Bool.not_eq_true] at hrec
          exact hrec

theorem insertionSortB_sorted (r : α → α → Bool)
    (htot : ∀ a b : α, r a b = true ∨ r b a = true) :
    ∀ l : List α, sortedB r (insertionSortB r l) = true := by
  intro l
  induction l with
  | nil => simp [insertionSortB, sortedB]
  | cons x xs ih =>
    simp only [insertionSortB]
    exact orderedInsertB_sorted r htot x _ ih

theorem orderedInsertB_perm (r : α → α → Bool) (x : α) :
    ∀ l : List α, List.Perm (orderedInsertB r x l) (x :: l) := by
  intro l
  induction l with
  | nil => simp [orderedInsertB]
  | cons y ys ih =>
    simp only [orderedInsertB]
    by_cases hxy : r x y = true
    · simp [hxy]
    · simp only [hxy, if_neg, Bool.not_eq_true]
      exact List.Perm.trans (List.Perm.cons y ih) (List.Perm.swap x y ys)

theorem insertionSortB_perm (r : α → α → Bool) :
    ∀ l : List α, List.Perm (insertionSortB r l) l := by
  intro l
  induction l with
  | nil => simp [insertionSortB]
  | cons x xs ih =>
    simp only [insertionSortB]
    exact List.Perm.trans (orderedInsertB_perm r x _) (List.Perm.cons x ih)

/-! ### QString primitives used by the code -/

/-- QString::startsWith. -/
def qstartsWith (p s : String) : Bool := p.data.isPrefixOf s.data

/-- Matching a `QDir` name filter of the shape `"*suffix"`:
the entry name must end in `suffix`. -/
def qendsWith (suffix s : String) : Bool := suffix.data.isSuffixOf s.data

/-! ### WiFi SSID list (`TyphoonSSIDItem`, `_findSsid`, `_newSSID`) -/

/-- A `TyphoonSSIDItem`: SSID string plus signal strength. -/
structure SSIDItem where
  ssid : String
  rssi : Int
deriving DecidableEq, Repr

/-- Reflexive closure of the comparator `compareRSSI`
(`s1->rssi() > s2->rssi()`, i.e. descending signal strength). -/
def rssiDescB (a b : SSIDItem) : Bool := decide (b.rssi ≤ a.rssi)

/-- `TyphoonHQuickInterface::_findSsid`: walk `_ssidList`; on the first
entry whose ssid equals `ssid`, set its rssi to `rssi` and return it.
Returns the found item (if any) together with the updated list. -/
def findSsidUpd (ssid : String) (rssi : Int) :
    List SSIDItem → Option SSIDItem × List SSIDItem
  | [] => (none, [])
  | s :: rest =>
    if s.ssid = ssid then
      (some { s with rssi := rssi }, { s with rssi := rssi } :: rest)
    else
      let res := findSsidUpd ssid rssi rest
      (res.1, s :: res.2)

/-- The `#if !defined(QT_DEBUG)` guard in `_newSSID`: release builds only
accept SSIDs of the supported cameras. -/
def ssidPassesFilter (ssid : String) : Bool :=
  qstartsWith "CGOET" ssid || qstartsWith "E10T" ssid ||
    qstartsWith "E90_" ssid || qstartsWith "E50_" ssid

/-- `TyphoonHQuickInterface::_newSSID` (release build): if the SSID passes
the camera filter and is not already listed, append a new item and
re-sort the whole list by descending rssi (`std::sort` with
`compareRSSI`); if it is already listed, `_findSsid` updates that entry
in place and no sort happens. -/
def newSSID (ssid : String) (rssi : Int) (l : List SSIDItem) :
    List SSIDItem :=
  if ssidPassesFilter ssid then
    match findSsidUpd ssid rssi l with
    | (some _, l2) => l2
    | (none, l2) => insertionSortB rssiDescB (l2 ++ [SSIDItem.mk ssid rssi])
  else l

/-- The ordering invariant claimed for `_ssidList`: every adjacent pair
is in descending rssi order. -/
def sortedByRssiDesc (l : List SSIDItem) : Bool := sortedB rssiDescB l

/-- A sequence of `_newSSID` calls applied to the empty list produced by
the `_clearSSids()` call in `startScan`. -/
def runNewSSIDs (calls : List (String × Int)) : List SSIDItem :=
  calls.foldl (fun l c => newSSID c.1 c.2 l) []

theorem rssiDescB_total (a b : SSIDItem) :
    rssiDescB a b = true ∨ rssiDescB b a = true := by
  simp only [rssiDescB, decide_eq_true_iff]
  exact Int.le_total b.rssi a.rssi

/-- `_findSsid` only changes an rssi field: the sequence of SSID strings
in the list is unchanged. -/
theorem findSsidUpd_map_ssid (ssid : String) (rssi : Int) :
    ∀ l : List SSIDItem,
      (findSsidUpd ssid rssi l).2.map SSIDItem.ssid = l.map SSIDItem.ssid := by
  intro l
  induction l with
  | nil => simp [findSsidUpd]
  | cons s rest ih =>
    simp only [findSsidUpd]
    by_cases h : s.ssid = ssid
    · simp [h]
    · simp [h, ih]

/-- When `_findSsid` finds nothing, the reported SSID is not in the list. -/
theorem findSsidUpd_none_not_mem (ssid : String) (rssi : Int) :
    ∀ l : List SSIDItem, (findSsidUpd ssid rssi l).1 = none →
      ssid ∉ l.map SSIDItem.ssid := by
  intro l
  induction l with
  | nil => intro _; simp
  | cons s rest ih =>
    intro hnone
    simp only [findSsidUpd] at hnone
    by_cases h : s.ssid = ssid
    · simp [h] at hnone
    · simp only [h, if_neg] at hnone
      simp only [List.map_cons, List.mem_cons]
      rintro (h1 | h2)
      · exact h h1.symm
      · exact ih hnone h2

/-- One `_newSSID` call keeps SSID strings pairwise distinct. -/
theorem newSSID_preserves_nodup (ssid : String) (rssi : Int)
    (l : List SSIDItem) (h : (l.map SSIDItem.ssid).Nodup) :
    ((newSSID ssid rssi l).map SSIDItem.ssid).Nodup := by
  unfold newSSID
  by_cases hf : ssidPassesFilter ssid = true
  · simp only [hf, if_pos]
    rcases hres : findSsidUpd ssid rssi l with ⟨fnd, l2⟩
    have hl2 : l2.map SSIDItem.ssid = l.map SSIDItem.ssid := by
      have := findSsidUpd_map_ssid ssid rssi l
      rw [hres] at this
      exact this
    cases fnd with
    | some s0 =>
      simp only []
      rw [hl2]
      exact h
    | none =>
      simp only []
      have hperm :
          List.Perm
            ((insertionSortB rssiDescB (l2 ++ [SSIDItem.mk ssid rssi])).map SSIDItem.ssid)
            ((l2 ++ [SSIDItem.mk ssid rssi]).map SSIDItem.ssid) :=
        (insertionSortB_perm rssiDescB (l2 ++ [SSIDItem.mk ssid rssi])).map SSIDItem.ssid
      rw [List.Perm.nodup_iff hperm]
      have hnotmem : ssid ∉ l.map SSIDItem.ssid := by
        apply findSsidUpd_none_not_mem ssid rssi l
        rw [hres]
      have hperm2 :
          List.Perm (l2.map SSIDItem.ssid ++ [ssid])
            (ssid :: l2.map SSIDItem.ssid) :=
        List.perm_append_singleton ssid (l2.map SSIDItem.ssid)
      simp only [List.map_append, List.map_cons, List.map_nil]
      rw [List.Perm.nodup_iff hperm2, List.nodup_cons, hl2]
      exact ⟨hnotmem, h⟩
  · simp only [hf, if_neg]
    simpa using h

/-- C3 counterexample: the claim that `_ssidList` is sorted by descending
rssi after every `_newSSID` invocation fails when an invocation only
updates the rssi of an existing entry. Starting from the empty list,
report `E90_A` at -10 and `E90_B` at -20 (list sorted), then report
`E90_B` again at 0: `_findSsid` raises its rssi in place and `_newSSID`
does not re-sort, leaving [E90_A(-10), E90_B(0)], which is not in
descending order. -/
theorem newSSID_update_breaks_order_cex :
    sortedByRssiDesc
      (newSSID "E90_B" 0
        (newSSID "E90_B" (-20) (newSSID "E90_A" (-10) []))) = false := by
  decide

/-- C3 (amended): `_ssidList` is sorted by descending rssi after every
`_newSSID` invocation that appends a new entry (the append branch
re-sorts the whole list with `compareRSSI`); an invocation that merely
updates the rssi of an existing entry via `_findSsid` does not re-sort and
can leave the list out of order. -/
theorem newSSID_append_sorted (ssid : String) (rssi : Int)
    (l : List SSIDItem) (hf : ssidPassesFilter ssid = true)
    (hnew : (findSsidUpd ssid rssi l).1 = none) :
    sortedByRssiDesc (newSSID ssid rssi l) = true := by
  unfold newSSID
  simp only [hf, if_pos]
  rcases hres : findSsidUpd ssid rssi l with ⟨fnd, l2⟩
  rw [hres] at hnew
  simp only at hnew
  subst hnew
  simp only []
  exact insertionSortB_sorted rssiDescB rssiDescB_total _

theorem newSSID_append_sorted_witness :
    sortedByRssiDesc (newSSID "E90_A" (-10) []) = true :=
  newSSID_append_sorted "E90_A" (-10) [] (by decide) (by decide)

/-- C8: every SSID appears at most once in the WiFi network list. For
every sequence of `_newSSID` calls applied to the cleared list produced
by `startScan`, the resulting `_ssidList` has pairwise-distinct SSID
strings: a reported SSID already present only gets its rssi updated by
`_findSsid`, and no new entry is appended. -/
theorem runNewSSIDs_unique (calls : List (String × Int)) :
    ((runNewSSIDs calls).map SSIDItem.ssid).Nodup := by
  unfold runNewSSIDs
  have main :
      ∀ (cs : List (String × Int)) (l : List SSIDItem),
        (l.map SSIDItem.ssid).Nodup →
        ((cs.foldl (fun l c => newSSID c.1 c.2 l) l).map SSIDItem.ssid).Nodup := by
    intro cs
    induction cs with
    | nil => intro l h; simpa using h
    | cons c rest ih =>
      intro l h
      simp only [List.foldl_cons]
      exact ih (newSSID c.1 c.2 l) (newSSID_preserves_nodup c.1 c.2 l h)
  exact main calls [] (by simp)

/-! ### Firmware image copy (`TyphoonHFileCopy::startCopy`)

The source file content is a list of bytes (as `Nat`). I/O faults are an
oracle: `readFail k` / `writeFail k` tell whether the k-th
`inFile.read` / `outFile.write` call fails. The copy emits signals; we
record the error messages, the number of `copyDone` emissions, the byte
count returned by each successful read, and the number of
`copyProgress` emissions (the percentage itself is float UI data used
by no claim). `dstFile = none` models a destination that was never
created or was removed by `outFile.remove()`. -/

/-- `#define READ_CHUNK_SIZE 1024 * 1024 * 4`. -/
def READ_CHUNK_SIZE : Nat := 1024 * 1024 * 4

structure CopyResult where
  dstFile : Option (List Nat)
  errorMsgs : List String
  doneCount : Nat
  reads : List Nat
  progressCount : Nat
deriving DecidableEq, Repr

def readErrMsg : String := "Error reading firmware file."
def writeErrMsg : String := "Error writing firmware file."
def openSrcErrMsg : String := "Error opening firmware update file."
def openDstErrMsg : String := "Error opening firmware destination file."

/-- The `while(!inFile.atEnd())` loop of `startCopy`. `remaining` is the
unread suffix of the source, `written` the bytes written so far, `k` the
index of the next read. Each iteration reads at most
`READ_CHUNK_SIZE` bytes, writes them, and emits one progress signal. -/
def startCopyLoop (readFail writeFail : Nat → Bool) (k : Nat)
    (remaining written : List Nat) : CopyResult :=
  match remaining with
  | [] =>
    { dstFile := some written, errorMsgs := [], doneCount := 1,
      reads := [], progressCount := 0 }
  | b :: rest =>
    if readFail k then
      { dstFile := none, errorMsgs := [readErrMsg], doneCount := 0,
        reads := [], progressCount := 0 }
    else
      let chunk := (b :: rest).take READ_CHUNK_SIZE
      if writeFail k then
        { dstFile := none, errorMsgs := [writeErrMsg], doneCount := 0,
          reads := [chunk.length], progressCount := 0 }
      else
        let r := startCopyLoop readFail writeFail (k + 1)
          ((b :: rest).drop READ_CHUNK_SIZE) (written ++ chunk)
        { r with reads := chunk.length :: r.reads,
                 progressCount := r.progressCount + 1 }
termination_by remaining.length
decreasing_by
  simp only [List.length_drop, READ_CHUNK_SIZE, List.length_cons]
  omega

/-- `TyphoonHFileCopy::startCopy`: open source and destination, then run
the chunked copy loop; on success close both files and emit `copyDone`. -/
def startCopy (srcOpenOk dstOpenOk : Bool) (readFail writeFail : Nat → Bool)
    (src : List Nat) : CopyResult :=
  if !srcOpenOk then
    { dstFile := none, errorMsgs := [openSrcErrMsg], doneCount := 0,
      reads := [], progressCount := 0 }
  else if !dstOpenOk then
    { dstFile := none, errorMsgs := [openDstErrMsg], doneCount := 0,
      reads := [], progressCount := 0 }
  else
    startCopyLoop readFail writeFail 0 src []

/-- The chunk sizes a faultless run reads: `min READ_CHUNK_SIZE`
of what remains, until the source is exhausted. -/
def chunkSizes (n : Nat) : List Nat :=
  if n = 0 then []
  else min READ_CHUNK_SIZE n :: chunkSizes (n - READ_CHUNK_SIZE)
termination_by n
decreasing_by
  simp only [READ_CHUNK_SIZE]
  omega

theorem chunkSizes_eq_nil : chunkSizes 0 = [] := by
  rw [chunkSizes]
  rfl

theorem chunkSizes_eq_cons (n : Nat) (h : n ≠ 0) :
    chunkSizes n =
      min READ_CHUNK_SIZE n :: chunkSizes (n - READ_CHUNK_SIZE) := by
  conv_lhs => rw [chunkSizes]
  rw [if_neg h]

theorem startCopyLoop_noFail (readFail writeFail : Nat → Bool)
    (hr : ∀ k, readFail k = false) (hw : ∀ k, writeFail k = false) :
    ∀ (n : Nat) (remaining written : List Nat) (k : Nat),
      remaining.length ≤ n →
      (startCopyLoop readFail writeFail k remaining written).dstFile
          = some (written ++ remaining) ∧
      (startCopyLoop readFail writeFail k remaining written).errorMsgs = [] ∧
      (startCopyLoop readFail writeFail k remaining written).doneCount = 1 ∧
      (startCopyLoop readFail writeFail k remaining written).reads
          = chunkSizes remaining.length := by
  intro n
  induction n with
  | zero =>
    intro remaining written k hlen
    have hremnil : remaining = [] := List.length_eq_zero.mp (Nat.le_zero.mp hlen)
    subst hremnil
    simp [startCopyLoop, chunkSizes_eq_nil]
  | succ m ih =>
    intro remaining written k hlen
    cases remaining with
    | nil =>
      simp [startCopyLoop, chunkSizes_eq_nil]
    | cons b rest =>
      have hlen2 : ((b :: rest).drop READ_CHUNK_SIZE).length ≤ m := by
        simp only [List.length_drop, List.length_cons] at hlen ⊢
        have hC : 0 < READ_CHUNK_SIZE := by
          simp only [READ_CHUNK_SIZE]
          omega
        omega
      obtain ⟨ih1, ih2, ih3, ih4⟩ := ih ((b :: rest).drop READ_CHUNK_SIZE)
        (written ++ (b :: rest).take READ_CHUNK_SIZE) (k + 1) hlen2
      simp only [startCopyLoop, hr, hw, Bool.false_eq_true, if_false]
      have hne : (b :: rest).length ≠ 0 := by simp
      refine ⟨?_, ?_, ?_, ?_⟩
      · show (startCopyLoop readFail writeFail (k + 1)
            ((b :: rest).drop READ_CHUNK_SIZE)
            (written ++ (b :: rest).take READ_CHUNK_SIZE)).dstFile
          = some (written ++ b :: rest)
        rw [ih1, List.append_assoc, List.take_append_drop]
      · exact ih2
      · exact ih3
      · show ((b :: rest).take READ_CHUNK_SIZE).length ::
            (startCopyLoop readFail writeFail (k + 1)
              ((b :: rest).drop READ_CHUNK_SIZE)
              (written ++ (b :: rest).take READ_CHUNK_SIZE)).reads
          = chunkSizes (b :: rest).length
        rw [ih4, chunkSizes_eq_cons _ hne, List.length_take, List.length_drop]

/-- C1: when both files open and every read and write succeeds,
`startCopy` produces a destination whose content equals the source,
reads the source in fixed `READ_CHUNK_SIZE` (4 MB) chunks — each read
returns `min READ_CHUNK_SIZE remaining` bytes until the source is
exhausted — emits no error, and emits `copyDone` exactly once. -/
theorem startCopy_success (src : List Nat) (readFail writeFail : Nat → Bool)
    (hr : ∀ k, readFail k = false) (hw : ∀ k, writeFail k = false) :
    (startCopy true true readFail writeFail src).dstFile = some src ∧
    (startCopy true true readFail writeFail src).errorMsgs = [] ∧
    (startCopy true true readFail writeFail src).doneCount = 1 ∧
    (startCopy true true readFail writeFail src).reads =
      chunkSizes src.length := by
  obtain ⟨h1, h2, h3, h4⟩ := startCopyLoop_noFail readFail writeFail hr hw
    src.length src [] 0 (Nat.le_refl _)
  rw [List.nil_append] at h1
  simp only [startCopy, Bool.not_true, Bool.false_eq_true, if_false]
  exact ⟨h1, h2, h3, h4⟩

theorem startCopy_success_witness :
    (startCopy true true (fun _ => false) (fun _ => false) [7, 8, 9]).dstFile
        = some [7, 8, 9] ∧
    (startCopy true true (fun _ => false) (fun _ => false) [7, 8, 9]).errorMsgs
        = [] ∧
    (startCopy true true (fun _ => false) (fun _ => false) [7, 8, 9]).doneCount
        = 1 ∧
    (startCopy true true (fun _ => false) (fun _ => false) [7, 8, 9]).reads
        = chunkSizes [7, 8, 9].length :=
  startCopy_success [7, 8, 9] (fun _ => false) (fun _ => false)
    (fun _ => rfl) (fun _ => rfl)

theorem startCopyLoop_fail (readFail writeFail : Nat → Bool) :
    ∀ (n : Nat) (remaining written : List Nat) (k : Nat),
      remaining.length ≤ n →
      (∃ j : Nat, j * READ_CHUNK_SIZE < remaining.length ∧
        (readFail (k + j) = true ∨ writeFail (k + j) = true)) →
      (startCopyLoop readFail writeFail k remaining written).dstFile = none ∧
      ((startCopyLoop readFail writeFail k remaining written).errorMsgs
          = [readErrMsg] ∨
       (startCopyLoop readFail writeFail k remaining written).errorMsgs
          = [writeErrMsg]) ∧
      (startCopyLoop readFail writeFail k remaining written).doneCount
          = 0 := by
  intro n
  induction n with
  | zero =>
    intro remaining written k hlen hex
    have hremnil : remaining = [] := List.length_eq_zero.mp (Nat.le_zero.mp hlen)
    subst hremnil
    obtain ⟨j, hj, _⟩ := hex
    simp at hj
  | succ m ih =>
    intro remaining written k hlen hex
    cases remaining with
    | nil =>
      obtain ⟨j, hj, _⟩ := hex
      simp at hj
    | cons b rest =>
      cases hrk : readFail k with
      | true =>
        simp [startCopyLoop, hrk]
      | false =>
        cases hwk : writeFail k with
        | true =>
          simp [startCopyLoop, hrk, hwk]
        | false =>
          obtain ⟨j, hjlt, hjf⟩ := hex
          have hjpos : j ≠ 0 := by
            rintro rfl
            rw [Nat.add_zero] at hjf
            rcases hjf with h | h
            · rw [hrk] at h; exact Bool.false_ne_true h
            · rw [hwk] at h; exact Bool.false_ne_true h
          obtain ⟨j2, rfl⟩ : ∃ j2, j = j2 + 1 := ⟨j - 1, by omega⟩
          have hlen2 : ((b :: rest).drop READ_CHUNK_SIZE).length ≤ m := by
            simp only [List.length_drop, List.length_cons] at hlen ⊢
            have hC : 0 < READ_CHUNK_SIZE := by
              simp only [READ_CHUNK_SIZE]
              omega
            omega
          have hex2 : ∃ j3 : Nat,
              j3 * READ_CHUNK_SIZE < ((b :: rest).drop READ_CHUNK_SIZE).length ∧
              (readFail (k + 1 + j3) = true ∨ writeFail (k + 1 + j3) = true) := by
            refine ⟨j2, ?_, ?_⟩
            · simp only [List.length_drop]
              rw [Nat.succ_mul] at hjlt
              omega
            · have harith : k + (j2 + 1) = k + 1 + j2 := by omega
              rw [harith] at hjf
              exact hjf
          obtain ⟨f1, f2, f3⟩ := ih ((b :: rest).drop READ_CHUNK_SIZE)
            (written ++ (b :: rest).take READ_CHUNK_SIZE) (k + 1) hlen2 hex2
          simp only [startCopyLoop, hrk, hwk, Bool.false_eq_true, if_false]
          exact ⟨f1, f2, f3⟩

/-- C2: when the destination file opened but a read or write fails
during the copy (the j-th read happens when j * READ_CHUNK_SIZE is
below the source length), `startCopy` emits exactly one `copyError`
with a human-readable message, removes the partially written
destination (`dstFile = none` models `outFile.remove()`), and
terminates without emitting `copyDone`. -/
theorem startCopy_failure (src : List Nat) (readFail writeFail : Nat → Bool)
    (h : ∃ j : Nat, j * READ_CHUNK_SIZE < src.length ∧
      (readFail j = true ∨ writeFail j = true)) :
    (startCopy true true readFail writeFail src).dstFile = none ∧
    ((startCopy true true readFail writeFail src).errorMsgs = [readErrMsg] ∨
     (startCopy true true readFail writeFail src).errorMsgs = [writeErrMsg]) ∧
    (startCopy true true readFail writeFail src).doneCount = 0 := by
  have hex : ∃ j : Nat, j * READ_CHUNK_SIZE < src.length ∧
      (readFail (0 + j) = true ∨ writeFail (0 + j) = true) := by
    obtain ⟨j, h1, h2⟩ := h
    exact ⟨j, h1, by rw [Nat.zero_add]; exact h2⟩
  obtain ⟨f1, f2, f3⟩ := startCopyLoop_fail readFail writeFail src.length
    src [] 0 (Nat.le_refl _) hex
  simp only [startCopy, Bool.not_true, Bool.false_eq_true, if_false]
  exact ⟨f1, f2, f3⟩

theorem startCopy_failure_witness :
    (startCopy true true (fun _ => true) (fun _ => false) [1, 2, 3]).dstFile
        = none ∧
    ((startCopy true true (fun _ => true) (fun _ => false) [1, 2, 3]).errorMsgs
        = [readErrMsg] ∨
     (startCopy true true (fun _ => true) (fun _ => false) [1, 2, 3]).errorMsgs
        = [writeErrMsg]) ∧
    (startCopy true true (fun _ => true) (fun _ => false) [1, 2, 3]).doneCount
        = 0 :=
  startCopy_failure [1, 2, 3] (fun _ => true) (fun _ => false)
    ⟨0, by decide, Or.inl rfl⟩

/-! ### Telemetry log rotation (`TyphoonHQuickInterface::init`)

`init` lists the telemetry log files, sorts them with
`created_greater_than` (`f1.created() > f2.created()`, newest first),
and if there is more than one file and their combined size exceeds 1 GB
it repeatedly removes `logs[0]` — the head of the newest-first list —
until the total is at most 1 GB or the list is empty. -/

/-- A `QFileInfo` for a stored telemetry log. -/
structure LogFile where
  name : String
  created : Int
  size : Int
deriving DecidableEq, Repr

/-- Reflexive closure of the comparator `created_greater_than`
(`f1.created() > f2.created()`, newest first). -/
def createdDescB (a b : LogFile) : Bool := decide (b.created ≤ a.created)

def sumSizes (l : List LogFile) : Int := l.foldl (fun acc f => acc + f.size) 0

/-- `1024 * 1024 * 1024` bytes: the 1 GB limit. -/
def LOG_LIMIT : Int := 1024 * 1024 * 1024

/-- The `while(totalLogSize > (1024*1024*1024) && logs.size())` loop:
while over the limit, drop `logs[0]` and subtract its size. -/
def pruneLogs : Int → List LogFile → List LogFile
  | _, [] => []
  | total, f :: rest =>
    if LOG_LIMIT < total then pruneLogs (total - f.size) rest
    else f :: rest

/-- The log-rotation fragment of `TyphoonHQuickInterface::init`. -/
def logRotation (files : List LogFile) : List LogFile :=
  let logs := insertionSortB createdDescB files
  if 1 < logs.length then pruneLogs (sumSizes logs) logs
  else logs

/-- An older telemetry log (created at time 0, 700 MB). -/
def oldLog : LogFile := { name := "old", created := 0, size := 700 * 1024 * 1024 }

/-- A newer telemetry log (created at time 100, 700 MB). -/
def newLog : LogFile := { name := "new", created := 100, size := 700 * 1024 * 1024 }

/-- C5 (code bug evidence): with two log files (700 MB each, 1.4 GB
combined, over the 1 GB limit) the rotation deletes the NEWEST file,
not the oldest: `created_greater_than` sorts the list newest-first and
the loop removes `logs[0]`, the newest entry — although the comment
inside the loop says "Removing old log file". Here the older 700 MB file is the
one that survives. -/
theorem logRotation_deletes_newest_not_oldest :
    oldLog.created < newLog.created ∧
    LOG_LIMIT < sumSizes [oldLog, newLog] ∧
    logRotation [oldLog, newLog] = [oldLog] := by
  refine ⟨by decide, by decide, ?_⟩
  rfl

/-! ### Media list (`TyphoonMediaItem`, `refreshMeadiaList`, `mediaItem`) -/

/-- A `TyphoonMediaItem`: filename plus selection flag. -/
structure MediaItem where
  fileName : String
  selected : Bool
deriving DecidableEq, Repr

/-- Reflexive closure of the `refreshMeadiaList` sort comparator
(`a->fileName() > b->fileName()`, filename descending). -/
def nameDescB (a b : MediaItem) : Bool := decide (b.fileName ≤ a.fileName)

/-- The suffixes of the active name filters: `"*" YUNEEC_VIDEO_EXTENSION`
when browsing videos, `"*.jpg" << "*.JPG"` when browsing photos. -/
def mediaNameSuffixes (browseVideos : Bool) (videoExt : String) :
    List String :=
  if browseVideos then [videoExt] else [".jpg", ".JPG"]

/-- An entry matches the `QDir` name filters iff it ends in one of the
filter suffixes. -/
def matchesNameFilters (suffixes : List String) (name : String) : Bool :=
  suffixes.any (fun suf => qendsWith suf name)

/-- `TyphoonHQuickInterface::refreshMeadiaList` (name as in the source):
clear the media list, enumerate the directory entries matching the
active name filters, wrap each in a fresh (unselected) `TyphoonMediaItem`,
and sort by filename descending. `entries` is the file listing of the
directory before name filtering. -/
def refreshMeadiaList (entries : List String) (browseVideos : Bool)
    (videoExt : String) : List MediaItem :=
  insertionSortB nameDescB
    ((entries.filter
        (matchesNameFilters (mediaNameSuffixes browseVideos videoExt))).map
      (fun n => MediaItem.mk n false))

/-- The ordering claimed for `_mediaList`: adjacent filenames descending. -/
def sortedByNameDesc (l : List MediaItem) : Bool := sortedB nameDescB l

theorem nameDescB_total (a b : MediaItem) :
    nameDescB a b = true ∨ nameDescB b a = true := by
  simp only [nameDescB, decide_eq_true_iff]
  exact le_total b.fileName a.fileName

/-- C7: after every `refreshMeadiaList`, the media list is ordered by
filename descending (every adjacent pair in `QString` order), and its
filenames are exactly (as a multiset) the directory entries matched by
the active name filters. -/
theorem refreshMeadiaList_sorted_and_exact (entries : List String)
    (browseVideos : Bool) (videoExt : String) :
    sortedByNameDesc (refreshMeadiaList entries browseVideos videoExt)
        = true ∧
    List.Perm
      ((refreshMeadiaList entries browseVideos videoExt).map
        MediaItem.fileName)
      (entries.filter
        (matchesNameFilters (mediaNameSuffixes browseVideos videoExt))) := by
  constructor
  · exact insertionSortB_sorted nameDescB nameDescB_total _
  · have hperm :
        List.Perm
          ((refreshMeadiaList entries browseVideos videoExt).map
            MediaItem.fileName)
          (((entries.filter
              (matchesNameFilters
                (mediaNameSuffixes browseVideos videoExt))).map
            (fun n => MediaItem.mk n false)).map MediaItem.fileName) :=
      (insertionSortB_perm nameDescB _).map MediaItem.fileName
    have hmm :
        (((entries.filter
            (matchesNameFilters
              (mediaNameSuffixes browseVideos videoExt))).map
          (fun n => MediaItem.mk n false)).map MediaItem.fileName)
          = entries.filter
              (matchesNameFilters (mediaNameSuffixes browseVideos videoExt)) := by
      rw [List.map_map]
      exact List.map_id _
    rw [hmm] at hperm
    exact hperm

/-- `TyphoonHQuickInterface::mediaItem(int index)`: bounds-checked
access into `_mediaList`; `none` models the `NULL` return. -/
def mediaItem (mediaList : List MediaItem) (index : Int) :
    Option MediaItem :=
  if h : 0 ≤ index ∧ mediaList.length ≠ 0 ∧ index < (mediaList.length : Int)
  then some (mediaList.get ⟨index.toNat, by omega⟩)
  else none

/-- `TyphoonHQuickInterface::mediaCount()`. -/
def mediaCount (mediaList : List MediaItem) : Int := mediaList.length

/-- C10: `mediaItem` is total at the public interface: it returns the
item at position `index` when `0 ≤ index < mediaCount` (the list is then
necessarily non-empty), and returns NULL — with no out-of-bounds
access — for every negative index, every index at or beyond
`mediaCount`, and whenever the list is empty. -/
theorem mediaItem_total (mediaList : List MediaItem) (index : Int) :
    (0 ≤ index → index < mediaCount mediaList →
      mediaItem mediaList index = mediaList.get? index.toNat ∧
      (mediaItem mediaList index).isSome = true) ∧
    (index < 0 ∨ mediaCount mediaList ≤ index ∨ mediaList = [] →
      mediaItem mediaList index = none) := by
  constructor
  · intro h0 hlt
    have hcond : 0 ≤ index ∧ mediaList.length ≠ 0 ∧
        index < (mediaList.length : Int) := by
      refine ⟨h0, ?_, ?_⟩
      · simp only [mediaCount] at hlt
        omega
      · simpa [mediaCount] using hlt
    constructor
    · rw [mediaItem, dif_pos hcond]
      rw [List.get?_eq_get (by omega)]
    · rw [mediaItem, dif_pos hcond]
      rfl
  · intro hbad
    have hcondneg : ¬ (0 ≤ index ∧ mediaList.length ≠ 0 ∧
        index < (mediaList.length : Int)) := by
      rcases hbad with h | h | h
      · rintro ⟨h1, _, _⟩; omega
      · rintro ⟨_, _, h3⟩
        simp only [mediaCount] at h
        omega
      · rintro ⟨_, h2, _⟩
        exact h2 (by simp [h])
    rw [mediaItem, dif_neg hcondneg]

theorem mediaItem_total_witness :
    (mediaItem [MediaItem.mk "a.jpg" false] 0
        = some (MediaItem.mk "a.jpg" false)) ∧
    mediaItem [MediaItem.mk "a.jpg" false] 1 = none ∧
    mediaItem [MediaItem.mk "a.jpg" false] (-1) = none ∧
    mediaItem [] 0 = none := by
  refine ⟨?_, ?_, ?_, ?_⟩
  · have h := (mediaItem_total [MediaItem.mk "a.jpg" false] 0).1
      (by decide) (by decide)
    rw [h.1]
    rfl
  · exact (mediaItem_total [MediaItem.mk "a.jpg" false] 1).2
      (Or.inr (Or.inl (by decide)))
  · exact (mediaItem_total [MediaItem.mk "a.jpg" false] (-1)).2
      (Or.inl (by decide))
  · exact (mediaItem_total [] 0).2 (Or.inr (Or.inr rfl))

/-! ### WiFi credential map and `_authenticationError`

`_configurations` is a `QMap<QString, QString>` from SSID to password,
modelled as an association list; `settingsWifi` is the persisted
`WifiConfig` settings group that `_saveWifiConfigurations` rewrites. -/

def mapLookup (k : String) : List (String × String) → Option String
  | [] => none
  | p :: rest => if p.1 = k then some p.2 else mapLookup k rest

/-- `QMap::contains`. -/
def mapContains (k : String) (m : List (String × String)) : Bool :=
  (mapLookup k m).isSome

/-- `QMap::remove(key)`: drop the entries stored under `key`. -/
def mapRemove (k : String) : List (String × String) → List (String × String)
  | [] => []
  | p :: rest =>
    if p.1 = k then mapRemove k rest else p :: mapRemove k rest

/-- `_saveWifiConfigurations`: clear the settings group
(`settings.remove("")`) and write every configuration entry whose key is
non-empty. -/
def saveWifiConfigurations (configurations : List (String × String)) :
    List (String × String) :=
  configurations.filter (fun p => decide ¬ p.1 = "")

/-- The `TyphoonHQuickInterface` state touched by the WiFi binding
workflow. -/
structure WifiState where
  ssid : String
  password : String
  configurations : List (String × String)
  settingsWifi : List (String × String)
  bindingWiFi : Bool
  scanEnabled : Bool
  scanningWiFi : Bool
  ssidList : List SSIDItem
deriving DecidableEq, Repr

/-- `TyphoonHQuickInterface::startScan` (device build, zero delay):
`_clearSSids()`, enable scanning, and `_scanWifi()` sets
`_scanningWiFi = true`. -/
def startScan (s : WifiState) : WifiState :=
  { s with ssidList := [], scanEnabled := true, scanningWiFi := true }

/-- `TyphoonHQuickInterface::_authenticationError`: if the credential map
holds a password for the current `_ssid`, remove it and rewrite the
persisted configuration; reset `_bindingWiFi`; restart the WiFi scan. -/
def authenticationError (s : WifiState) : WifiState :=
  let s1 :=
    if mapContains s.ssid s.configurations then
      let cfg := mapRemove s.ssid s.configurations
      { s with configurations := cfg,
               settingsWifi := saveWifiConfigurations cfg }
    else s
  startScan { s1 with bindingWiFi := false }

theorem mapLookup_remove_same (k : String) :
    ∀ m : List (String × String), mapLookup k (mapRemove k m) = none := by
  intro m
  induction m with
  | nil => simp [mapRemove, mapLookup]
  | cons p rest ih =>
    simp only [mapRemove]
    by_cases h : p.1 = k
    · simp [h, ih]
    · simp [mapLookup, h, ih]

theorem mapLookup_remove_other (k k2 : String) (hne : k2 ≠ k) :
    ∀ m : List (String × String),
      mapLookup k2 (mapRemove k m) = mapLookup k2 m := by
  intro m
  induction m with
  | nil => simp [mapRemove]
  | cons p rest ih =>
    simp only [mapRemove, mapLookup]
    by_cases h : p.1 = k
    · have h2 : ¬ p.1 = k2 := by
        rw [h]
        exact fun hh => hne hh.symm
      rw [if_pos h, if_neg h2, ih]
    · rw [if_neg h]
      simp only [mapLookup]
      by_cases h3 : p.1 = k2
      · rw [if_pos h3, if_pos h3]
      · rw [if_neg h3, if_neg h3, ih]

/-- C4: on an authentication failure during WiFi binding, the stored
password for the current SSID is no longer in the credential map, and
when one was present the persisted configuration is rewritten from the
pruned map; `_bindingWiFi` is false; a scan is restarted
(`_scanEnabled` and `_scanningWiFi` are set and the SSID list cleared);
and the credential-map entry of every other SSID is unchanged. -/
theorem authenticationError_spec (s : WifiState) :
    mapContains s.ssid (authenticationError s).configurations = false ∧
    (authenticationError s).bindingWiFi = false ∧
    (authenticationError s).scanEnabled = true ∧
    (authenticationError s).scanningWiFi = true ∧
    (authenticationError s).ssidList = [] ∧
    (∀ k2 : String, k2 ≠ s.ssid →
      mapLookup k2 (authenticationError s).configurations
        = mapLookup k2 s.configurations) ∧
    (mapContains s.ssid s.configurations = true →
      (authenticationError s).settingsWifi
        = saveWifiConfigurations (mapRemove s.ssid s.configurations)) := by
  by_cases h : mapContains s.ssid s.configurations = true
  · have heq : authenticationError s =
        startScan
          { s with
              configurations := mapRemove s.ssid s.configurations,
              settingsWifi :=
                saveWifiConfigurations (mapRemove s.ssid s.configurations),
              bindingWiFi := false } := by
      simp only [authenticationError]
      rw [if_pos h]
    rw [heq]
    refine ⟨?_, rfl, rfl, rfl, rfl, ?_, fun _ => rfl⟩
    · show mapContains s.ssid (mapRemove s.ssid s.configurations) = false
      simp [mapContains, mapLookup_remove_same]
    · intro k2 hk2
      show mapLookup k2 (mapRemove s.ssid s.configurations)
          = mapLookup k2 s.configurations
      exact mapLookup_remove_other s.ssid k2 hk2 s.configurations
  · have hfalse : mapContains s.ssid s.configurations = false := by
      revert h
      cases mapContains s.ssid s.configurations <;> simp
    have heq : authenticationError s =
        startScan { s with bindingWiFi := false } := by
      simp only [authenticationError]
      rw [if_neg (by rw [hfalse]; exact Bool.false_ne_true)]
    rw [heq]
    refine ⟨hfalse, rfl, rfl, rfl, rfl, fun _ _ => rfl, ?_⟩
    intro habs
    rw [hfalse] at habs
    exact absurd habs Bool.false_ne_true

theorem authenticationError_spec_witness :
    mapContains "cam"
        (authenticationError
          { ssid := "cam", password := "pw",
            configurations := [("cam", "pw"), ("other", "pw2")],
            settingsWifi := [("cam", "pw"), ("other", "pw2")],
            bindingWiFi := true, scanEnabled := false,
            scanningWiFi := false,
            ssidList := [SSIDItem.mk "E90_X" (-10)] }).configurations
      = false ∧
    mapLookup "other"
        (authenticationError
          { ssid := "cam", password := "pw",
            configurations := [("cam", "pw"), ("other", "pw2")],
            settingsWifi := [("cam", "pw"), ("other", "pw2")],
            bindingWiFi := true, scanEnabled := false,
            scanningWiFi := false,
            ssidList := [SSIDItem.mk "E90_X" (-10)] }).configurations
      = some "pw2" := by
  have h := authenticationError_spec
    { ssid := "cam", password := "pw",
      configurations := [("cam", "pw"), ("other", "pw2")],
      settingsWifi := [("cam", "pw"), ("other", "pw2")],
      bindingWiFi := true, scanEnabled := false, scanningWiFi := false,
      ssidList := [SSIDItem.mk "E90_X" (-10)] }
  refine ⟨h.1, ?_⟩
  have h6 := h.2.2.2.2.2.1 "other" (by decide)
  rw [h6]
  rfl

/-! ### Mission import (`importMission`, `_importMissions`) -/

/-- The transient copy-progress UI state. -/
structure ImportState where
  copyingFiles : Bool
  copyingDone : Bool
  copyMessage : String
  updateProgress : Int
deriving DecidableEq, Repr

def sourceMissingMsg : String :=
  "Source path missing. Make sure you have a (FAT32 Formatted) microSD card loaded."

/-- `_copyProgress(totalCount, curCount)`; the float percentage is
modelled with integer division (no claim depends on its exact value). -/
def copyProgressUpd (totalCount curCount : Nat) (s : ImportState) :
    ImportState :=
  if totalCount = 0 then { s with updateProgress := 0 }
  else { s with updateProgress := Int.ofNat (curCount * 100 / totalCount) }

/-- The copy loop of `_importMissions`: `copyOk i` tells whether the
`QFile::copy` of the i-th plan file succeeds. -/
def importMissionsLoop (copyOk : Nat → Bool) (totalFiles : Nat) :
    Nat → List String → ImportState → ImportState
  | _, [], s =>
    { s with copyMessage := toString totalFiles ++ " files imported",
             copyingFiles := false, copyingDone := true }
  | cur, f :: rest, s =>
    if copyOk cur then
      importMissionsLoop copyOk totalFiles (cur + 1) rest
        (copyProgressUpd totalFiles (cur + 1) s)
    else
      { s with copyMessage := "Error importing " ++ f,
               copyingFiles := false, copyingDone := true }

/-- `importMission` (sets `_copyingFiles = true`, then the single-shot
timer runs `_importMissions`): if the import source path does not
exist, surface the missing-source message and return — the transient
flags are NOT touched on this path. -/
def importMission (sourceExists : Bool) (planFiles : List String)
    (copyOk : Nat → Bool) (s0 : ImportState) : ImportState :=
  let s := { s0 with copyingFiles := true }
  if !sourceExists then { s with copyMessage := sourceMissingMsg }
  else
    let s1 := { s with copyMessage := "Importing mission files..." }
    let s2 := copyProgressUpd planFiles.length 0 s1
    importMissionsLoop copyOk planFiles.length 0 planFiles s2

/-- C6 (code bug evidence): when the import source path is missing,
`_importMissions` surfaces the human-readable message but returns
without resetting `_copyingFiles`, so the transient copying flag stays
true — the claimed reset does not happen. Evaluated at a concrete
state with the flag initially false. -/
theorem importMission_missing_source_leaves_flag :
    (importMission false [] (fun _ => true)
        { copyingFiles := false, copyingDone := false,
          copyMessage := "", updateProgress := 0 }).copyingFiles = true ∧
    (importMission false [] (fun _ => true)
        { copyingFiles := false, copyingDone := false,
          copyMessage := "", updateProgress := 0 }).copyMessage
      = sourceMissingMsg := by
  exact ⟨rfl, rfl⟩

/-! ### Thermal opacity (`setThermalOpacity`) -/

/-- The state touched by `setThermalOpacity`: the member
`_thermalOpacity` and the persisted `kThermalOpacity` settings value.
`double` is modelled as `ℚ` (the code only compares and assigns). -/
structure ThermalState where
  thermalOpacity : ℚ
  settingsOpacity : ℚ
deriving DecidableEq, Repr

/-- The first clamping if of `setThermalOpacity`
(`if(val < 0.0) val = 0.0`). -/
def clampLow (v : ℚ) : ℚ := if v < 0 then 0 else v

/-- Both clamping ifs of `setThermalOpacity` in sequence
(`if(val > 100.0) val = 100.0` applied after the low clamp). -/
def clampOpacity (v : ℚ) : ℚ :=
  if 100 < clampLow v then 100 else clampLow v

/-- `TyphoonHQuickInterface::setThermalOpacity`: clamp to [0, 100]; when
the clamped value differs from the current one, store it and persist
it, otherwise leave state and settings untouched. -/
def setThermalOpacity (s : ThermalState) (v : ℚ) : ThermalState :=
  let v2 := clampOpacity v
  if s.thermalOpacity ≠ v2 then
    { thermalOpacity := v2, settingsOpacity := v2 }
  else s

theorem setThermalOpacity_eq_clamp (s : ThermalState) (v : ℚ) :
    (setThermalOpacity s v).thermalOpacity = clampOpacity v := by
  simp only [setThermalOpacity]
  by_cases h : s.thermalOpacity ≠ clampOpacity v
  · rw [if_pos h]
  · rw [if_neg h]
    rw [not_not] at h
    exact h

/-- C9: `setThermalOpacity` stores a clamped value: after the call the
thermal opacity lies in [0, 100]; input below 0 is stored as 0 and
input above 100 as 100; when the clamped value differs from the current
one, the persisted setting receives the same clamped value; and when it
equals the current one, neither state nor settings change. -/
theorem setThermalOpacity_clamps (s : ThermalState) (v : ℚ) :
    (0 ≤ (setThermalOpacity s v).thermalOpacity ∧
      (setThermalOpacity s v).thermalOpacity ≤ 100) ∧
    (v < 0 → (setThermalOpacity s v).thermalOpacity = 0) ∧
    (100 < v → (setThermalOpacity s v).thermalOpacity = 100) ∧
    (s.thermalOpacity ≠ clampOpacity v →
      (setThermalOpacity s v).settingsOpacity = clampOpacity v) ∧
    (s.thermalOpacity = clampOpacity v → setThermalOpacity s v = s) := by
  have hc := setThermalOpacity_eq_clamp s v
  have hlow : ∀ w : ℚ, 0 ≤ clampLow w := by
    intro w
    rw [clampLow]
    by_cases h0 : w < 0
    · rw [if_pos h0]
    · rw [if_neg h0]
      linarith [not_lt.mp h0]
  refine ⟨?_, ?_, ?_, ?_, ?_⟩
  · rw [hc, clampOpacity]
    by_cases h100 : 100 < clampLow v
    · rw [if_pos h100]
      norm_num
    · rw [if_neg h100]
      exact ⟨hlow v, le_of_not_lt h100⟩
  · intro hneg
    rw [hc, clampOpacity, clampLow, if_pos hneg]
    rw [if_neg (by norm_num)]
  · intro hbig
    have hl : clampLow v = v := by
      rw [clampLow, if_neg (by linarith)]
    rw [hc, clampOpacity, hl, if_pos hbig]
  · intro hdiff
    rw [setThermalOpacity, if_pos hdiff]
  · intro heq
    rw [setThermalOpacity, if_neg (fun hh => hh heq)]

theorem setThermalOpacity_clamps_witness :
    (0 ≤ (setThermalOpacity
        { thermalOpacity := 85, settingsOpacity := 85 } 150).thermalOpacity ∧
      (setThermalOpacity
        { thermalOpacity := 85, settingsOpacity := 85 } 150).thermalOpacity
        ≤ 100) ∧
    (setThermalOpacity
        { thermalOpacity := 85, settingsOpacity := 85 } 150).thermalOpacity
      = 100 := by
  have h := setThermalOpacity_clamps
    { thermalOpacity := 85, settingsOpacity := 85 } 150
  exact ⟨h.1, h.2.2.1 (by norm_num)⟩

end TyphoonH
